import Mathlib

/-!
# Posts API router (`routes/api/posts.js`)

A shallow embedding of the Express router that serves posts, likes and
comments, and the properties of its handlers.

* Each route handler is a function from the request data and the current
  document store to an `Outcome`: the HTTP response, the store afterwards and
  the list of store calls the handler issued, in order.
* A `try { ... } catch (error) { ... }` of the source is a `tryBlock` function
  that returns either the response or the thrown error, followed by the
  handler that applies the `catch` clause.
* Mongoose and MongoDB are outside the repository; they are modelled as a
  keyed list of documents whose calls can fail as the environment `Env` of a
  request dictates.
-/

namespace DevConnector

/-! ## Values -/

/-- An ObjectId, identified with its 24-digit text (`toString()` is injective). -/
abbrev ObjectId := Nat

/-- A path segment such as `req.params.id` as it arrives: the text of an
ObjectId, or any other text, on which the cast to ObjectId fails. -/
inductive IdParam where
  | valid (id : ObjectId)
  | malformed
deriving DecidableEq, Repr

/-- A thrown JavaScript error, reduced to the one field the handlers read,
`error.kind` (`none` when the field is undefined). -/
structure JsError where
  kind : Option String
deriving DecidableEq, Repr

/-- The Mongoose error of a failed cast to ObjectId. -/
def CastError : JsError := ⟨some "ObjectId"⟩

/-- The error of reading a property of `null`. -/
def TypeError : JsError := ⟨none⟩

/-- The error MongoDB raises on a second document with an existing `_id`. -/
def DuplicateKeyError : JsError := ⟨none⟩

/-! ## Data model -/

/-- Modelled from the spec: the schema of `models/Posts` is not under src/; a
Like holds the id of the liking user. -/
structure Like where
  user : ObjectId
deriving DecidableEq, Repr

/-- Modelled from the spec: the schema of `models/Posts` is not under src/; a
Comment has its own id and a snapshot of its author. -/
structure Comment where
  id : ObjectId
  user : ObjectId
  text : String
  name : String
  avatar : String
  date : Nat
deriving DecidableEq, Repr

/-- Modelled from the spec: the schema of `models/Posts` is not under src/; a
Post has an id, its author with a name and avatar snapshot, a text, and the
likes and comments, newest first. -/
structure Post where
  id : ObjectId
  user : ObjectId
  text : String
  name : String
  avatar : String
  likes : List Like
  comments : List Comment
  date : Nat
deriving DecidableEq, Repr

/-- Modelled from the spec: the schema of `models/User` is not under src/; the
handlers read `name` and `avatar` only. -/
structure User where
  id : ObjectId
  name : String
  avatar : String
deriving DecidableEq, Repr

/-! ## Document store -/

/-- Modelled from the spec: the Document Store is external; it holds the post
documents and the user documents, each found by its id. -/
structure Store where
  posts : List Post
  users : List User
deriving DecidableEq, Repr

/-- What a request cannot control: the error, if any, that a store call of
each sort throws during this request, the id the driver generates for a new
document and the clock. -/
structure Env where
  userRead : Option JsError
  postRead : Option JsError
  postWrite : Option JsError
  newId : ObjectId
  now : Nat
deriving DecidableEq, Repr

/-- A call on the store, as recorded in the log of a request. -/
inductive StoreOp where
  | userFindById (id : ObjectId)
  | postFindById (id : IdParam)
  | postInsert (id : ObjectId)
  | postSave (id : ObjectId)
  | postRemove (id : ObjectId)
deriving DecidableEq, Repr

/-- A store call that changes documents. -/
def StoreOp.isWrite : StoreOp → Bool
  | .userFindById _ => false
  | .postFindById _ => false
  | .postInsert _ => true
  | .postSave _ => true
  | .postRemove _ => true

/-- The first document with the given id replaced (an update by `_id`). -/
def replaceDoc (p : Post) : List Post → List Post
  | [] => []
  | q :: qs => if q.id = p.id then p :: qs else q :: replaceDoc p qs

/-- The first document with the given id deleted (a delete by `_id`). -/
def removeDoc (id : ObjectId) : List Post → List Post
  | [] => []
  | q :: qs => if q.id = id then qs else q :: removeDoc id qs

/-- Modelled from the spec: `User.findById(id)` of the external store; the
document with that id, `null` (here `none`) when there is none. -/
def User.findById (env : Env) (s : Store) (id : ObjectId) : Except JsError (Option User) :=
  match env.userRead with
  | some e => .error e
  | none => .ok (s.users.find? (fun u => u.id = id))

/-- Modelled from the spec: `Post.findById(id)` of the external store; a text
that is no ObjectId fails the cast with an error of kind `ObjectId`, otherwise
the post with that id, `null` (here `none`) when there is none. -/
def Post.findById (env : Env) (s : Store) (id : IdParam) : Except JsError (Option Post) :=
  match id with
  | .malformed => .error CastError
  | .valid n =>
    match env.postRead with
    | some e => .error e
    | none => .ok (s.posts.find? (fun p => p.id = n))

/-- Modelled from the spec: `save()` of a new document; one atomic write that
adds the document, refused when its id is already taken. -/
def Post.insert (env : Env) (s : Store) (p : Post) : Except JsError Store :=
  match env.postWrite with
  | some e => .error e
  | none =>
    if s.posts.any (fun q => q.id = p.id) then .error DuplicateKeyError
    else .ok { s with posts := s.posts ++ [p] }

/-- Modelled from the spec: `save()` of a loaded document; one atomic write
that replaces the stored document of the same id. -/
def Post.save (env : Env) (s : Store) (p : Post) : Except JsError Store :=
  match env.postWrite with
  | some e => .error e
  | none => .ok { s with posts := replaceDoc p s.posts }

/-- Modelled from the spec: `remove()` of a loaded document; one atomic write
that deletes the stored document of the same id. -/
def Post.remove (env : Env) (s : Store) (p : Post) : Except JsError Store :=
  match env.postWrite with
  | some e => .error e
  | none => .ok { s with posts := removeDoc p.id s.posts }

/-! ## JavaScript arrays -/

/-- `Array.prototype.indexOf`: the index of the first element equal to `x`,
`-1` when there is none. -/
def indexOf {α : Type} [DecidableEq α] (x : α) : List α → Int
  | [] => -1
  | y :: ys =>
    if y = x then 0
    else
      let i := indexOf x ys
      if i < 0 then -1 else i + 1

/-- `Array.prototype.splice(start, deleteCount)`, returning the array as it is
left: a negative `start` counts from the end, and both ends are clamped. -/
def splice {α : Type} (xs : List α) (start : Int) (deleteCount : Nat) : List α :=
  let len : Int := xs.length
  let actualStart : Nat := (if start < 0 then max (len + start) 0 else min start len).toNat
  xs.take actualStart ++ xs.drop (actualStart + deleteCount)

/-! ## Responses -/

/-- Modelled from the spec: one entry of `errors.array()` of express-validator,
a library outside src/: the message and the field it is about. -/
structure ValidationError where
  msg : String
  param : String
deriving DecidableEq, Repr

/-- The payload of a response. -/
inductive Body where
  /-- The payload of `res.json({ msg: m })`. -/
  | msg (m : String)
  /-- The payload of `res.json({ erros: errors.array() })`. -/
  | erros (es : List ValidationError)
  /-- The payload of `res.json(s)` for a string `s`. -/
  | str (s : String)
  /-- The payload of `res.send(s)`. -/
  | send (s : String)
  /-- The payload of `res.json(post)`. -/
  | post (p : Post)
  /-- The payload of `res.json(post.likes)`. -/
  | likes (ls : List Like)
  /-- The payload of `res.json(post.comments)`. -/
  | comments (cs : List Comment)
deriving DecidableEq, Repr

/-- An HTTP response: `res.status(n)` and the payload; `res.json` without
`status` answers 200. -/
structure Response where
  status : Nat
  body : Body
deriving DecidableEq, Repr

/-- What a request leaves behind: the response, the store and the store calls
issued, in order. -/
structure Outcome where
  res : Response
  store : Store
  log : List StoreOp
deriving DecidableEq, Repr

/-- The result of a `try` block: the response it sent or the error it threw,
with the store and the log at that point. -/
abbrev Tried := Except JsError Response × Store × List StoreOp

/-- The statement `res.status(500).send('Server Error')`. -/
def serverError : Response := ⟨500, .send "Server Error"⟩

/-- The `catch` clause of the routes that answer 500 to every error. -/
def catchAll (t : Tried) : Outcome :=
  match t with
  | (.ok r, s, l) => ⟨r, s, l⟩
  | (.error _, s, l) => ⟨serverError, s, l⟩

/-- The `catch` clause of GET /:id and DELETE /:id: an error of kind
`ObjectId` answers 404 with the given message, any other error 500. -/
def catchObjectId (notFound : String) (t : Tried) : Outcome :=
  match t with
  | (.ok r, s, l) => ⟨r, s, l⟩
  | (.error e, s, l) =>
    if e.kind = some "ObjectId" then ⟨⟨404, .msg notFound⟩, s, l⟩
    else ⟨serverError, s, l⟩

/-! ## Validation -/

/-- Modelled from the spec: the chain `body('text', 'Text is required').not().notEmpty()`
and `validationResult(req)` belong to express-validator, a library outside
src/. By the spec a missing or empty text is a validation error and a
non-empty text is the precondition of the handler; the result is the list of
errors of the request. -/
def validationResult (text : Option String) : List ValidationError :=
  match text with
  | none => [⟨"Text is required", "text"⟩]
  | some t => if t = "" then [⟨"Text is required", "text"⟩] else []

/-! ## Route handlers -/

/-- The `try` block of POST / (lines 22-34). -/
def create_post.tryBlock (env : Env) (s : Store) (uid : ObjectId) (text : Option String) :
    Tried :=
  match User.findById env s uid with
  | .error e => (.error e, s, [.userFindById uid])
  | .ok none =>
    -- `user.name` of null
    (.error TypeError, s, [.userFindById uid])
  | .ok (some user) =>
    let newPost : Post :=
      { id := env.newId, text := text.getD "", name := user.name, avatar := user.avatar,
        user := uid, likes := [], comments := [], date := env.now }
    match Post.insert env s newPost with
    | .error e => (.error e, s, [.userFindById uid, .postInsert newPost.id])
    | .ok s' => (.ok ⟨200, .post newPost⟩, s', [.userFindById uid, .postInsert newPost.id])

/-- The handler of POST / (lines 13-40): create a post. -/
def create_post (env : Env) (s : Store) (uid : ObjectId) (text : Option String) : Outcome :=
  let errors := validationResult text
  if !errors.isEmpty then ⟨⟨400, .erros errors⟩, s, []⟩
  else catchAll (create_post.tryBlock env s uid text)

/-- The `try` block of GET /:id (lines 59-66). -/
def get_post.tryBlock (env : Env) (s : Store) (id : IdParam) : Tried :=
  match Post.findById env s id with
  | .error e => (.error e, s, [.postFindById id])
  | .ok none => (.ok ⟨404, .msg "Posts not found"⟩, s, [.postFindById id])
  | .ok (some post) => (.ok ⟨200, .post post⟩, s, [.postFindById id])

/-- The handler of GET /:id (lines 58-74): get a post by id. -/
def get_post (env : Env) (s : Store) (id : IdParam) : Outcome :=
  catchObjectId "Posts not found" (get_post.tryBlock env s id)

/-- The `try` block of DELETE /:id (lines 80-92). -/
def delete_post.tryBlock (env : Env) (s : Store) (id : IdParam) (uid : ObjectId) : Tried :=
  match Post.findById env s id with
  | .error e => (.error e, s, [.postFindById id])
  | .ok none => (.ok ⟨404, .msg "Post not found"⟩, s, [.postFindById id])
  | .ok (some post) =>
    if post.user ≠ uid then
      (.ok ⟨401, .msg "User not authorized"⟩, s, [.postFindById id])
    else
      match Post.remove env s post with
      | .error e => (.error e, s, [.postFindById id, .postRemove post.id])
      | .ok s' => (.ok ⟨200, .str "Post removed"⟩, s', [.postFindById id, .postRemove post.id])

/-- The handler of DELETE /:id (lines 79-100): delete a post. -/
def delete_post (env : Env) (s : Store) (id : IdParam) (uid : ObjectId) : Outcome :=
  catchObjectId "Post not found" (delete_post.tryBlock env s id uid)

/-- The `try` block of PUT /like/:id (lines 106-120). -/
def like_post.tryBlock (env : Env) (s : Store) (id : IdParam) (uid : ObjectId) : Tried :=
  match Post.findById env s id with
  | .error e => (.error e, s, [.postFindById id])
  | .ok none =>
    -- `post.likes` of null
    (.error TypeError, s, [.postFindById id])
  | .ok (some post) =>
    if (post.likes.filter (fun like => like.user = uid)).length > 0 then
      (.ok ⟨400, .msg "Post already liked"⟩, s, [.postFindById id])
    else
      let post : Post := { post with likes := { user := uid } :: post.likes }
      match Post.save env s post with
      | .error e => (.error e, s, [.postFindById id, .postSave post.id])
      | .ok s' => (.ok ⟨200, .likes post.likes⟩, s', [.postFindById id, .postSave post.id])

/-- The handler of PUT /like/:id (lines 105-125): like a post. -/
def like_post (env : Env) (s : Store) (id : IdParam) (uid : ObjectId) : Outcome :=
  catchAll (like_post.tryBlock env s id uid)

/-- The `try` block of PUT /unlike/:id (lines 131-150). -/
def unlike_post.tryBlock (env : Env) (s : Store) (id : IdParam) (uid : ObjectId) : Tried :=
  match Post.findById env s id with
  | .error e => (.error e, s, [.postFindById id])
  | .ok none =>
    -- `post.likes` of null
    (.error TypeError, s, [.postFindById id])
  | .ok (some post) =>
    if (post.likes.filter (fun like => like.user = uid)).length = 0 then
      (.ok ⟨400, .msg "Post has not yet been liked"⟩, s, [.postFindById id])
    else
      let removeIndex := indexOf uid (post.likes.map (fun like => like.user))
      let post : Post := { post with likes := splice post.likes removeIndex 1 }
      match Post.save env s post with
      | .error e => (.error e, s, [.postFindById id, .postSave post.id])
      | .ok s' => (.ok ⟨200, .likes post.likes⟩, s', [.postFindById id, .postSave post.id])

/-- The handler of PUT /unlike/:id (lines 130-155): take a like back. -/
def unlike_post (env : Env) (s : Store) (id : IdParam) (uid : ObjectId) : Outcome :=
  catchAll (unlike_post.tryBlock env s id uid)

/-- The `try` block of POST /comment/:id (lines 169-184). -/
def add_comment.tryBlock (env : Env) (s : Store) (id : IdParam) (uid : ObjectId)
    (text : Option String) : Tried :=
  match User.findById env s uid with
  | .error e => (.error e, s, [.userFindById uid])
  | .ok user =>
    match Post.findById env s id with
    | .error e => (.error e, s, [.userFindById uid, .postFindById id])
    | .ok post =>
      match user, post with
      | none, _ =>
        -- `user.name` of null
        (.error TypeError, s, [.userFindById uid, .postFindById id])
      | some _, none =>
        -- `post.comments` of null
        (.error TypeError, s, [.userFindById uid, .postFindById id])
      | some user, some post =>
        let newComment : Comment :=
          { id := env.newId, text := text.getD "", name := user.name, avatar := user.avatar,
            user := uid, date := env.now }
        let post : Post := { post with comments := newComment :: post.comments }
        match Post.save env s post with
        | .error e =>
          (.error e, s, [.userFindById uid, .postFindById id, .postSave post.id])
        | .ok s' =>
          (.ok ⟨200, .comments post.comments⟩, s',
            [.userFindById uid, .postFindById id, .postSave post.id])

/-- The handler of POST /comment/:id (lines 160-190): comment on a post. -/
def add_comment (env : Env) (s : Store) (id : IdParam) (uid : ObjectId)
    (text : Option String) : Outcome :=
  let errors := validationResult text
  if !errors.isEmpty then ⟨⟨400, .erros errors⟩, s, []⟩
  else catchAll (add_comment.tryBlock env s id uid text)

/-- The `try` block of DELETE /comment/:id/:comment_id (lines 196-222). -/
def remove_comment.tryBlock (env : Env) (s : Store) (id comment_id : IdParam)
    (uid : ObjectId) : Tried :=
  match Post.findById env s id with
  | .error e => (.error e, s, [.postFindById id])
  | .ok none =>
    -- `post.comments` of null
    (.error TypeError, s, [.postFindById id])
  | .ok (some post) =>
    match post.comments.find? (fun comment => IdParam.valid comment.id = comment_id) with
    | none => (.ok ⟨404, .msg "Comment does not exist"⟩, s, [.postFindById id])
    | some comment =>
      if comment.user ≠ uid then
        (.ok ⟨401, .msg "Not authorized"⟩, s, [.postFindById id])
      else
        let removeIndex :=
          indexOf comment_id (post.comments.map (fun comment => IdParam.valid comment.id))
        let post : Post := { post with comments := splice post.comments removeIndex 1 }
        match Post.save env s post with
        | .error e => (.error e, s, [.postFindById id, .postSave post.id])
        | .ok s' =>
          (.ok ⟨200, .comments post.comments⟩, s', [.postFindById id, .postSave post.id])

/-- The handler of DELETE /comment/:id/:comment_id (lines 195-227): delete a
comment of a post. -/
def remove_comment (env : Env) (s : Store) (id comment_id : IdParam) (uid : ObjectId) :
    Outcome :=
  catchAll (remove_comment.tryBlock env s id comment_id uid)

/-! ## Requests in sequence -/

/-- A request to one of the routes that change posts, by the authenticated
user `uid`. -/
inductive Request where
  | create_post (uid : ObjectId) (text : Option String)
  | delete_post (id : IdParam) (uid : ObjectId)
  | like_post (id : IdParam) (uid : ObjectId)
  | unlike_post (id : IdParam) (uid : ObjectId)
  | add_comment (id : IdParam) (uid : ObjectId) (text : Option String)
  | remove_comment (id comment_id : IdParam) (uid : ObjectId)
deriving DecidableEq, Repr

/-- The router: the handler of the request's route. -/
def handle (env : Env) (s : Store) : Request → Outcome
  | .create_post uid text => create_post env s uid text
  | .delete_post id uid => delete_post env s id uid
  | .like_post id uid => like_post env s id uid
  | .unlike_post id uid => unlike_post env s id uid
  | .add_comment id uid text => add_comment env s id uid text
  | .remove_comment id cid uid => remove_comment env s id cid uid

/-- The store after a sequence of requests, each handled to its end before
the next, each in its own environment. -/
def run (s : Store) : List (Env × Request) → Store
  | [] => s
  | (env, r) :: rest => run (handle env s r).store rest

/-- Every post of the store has at most one like of each user. -/
def LikesUnique (s : Store) : Prop :=
  ∀ p ∈ s.posts, (p.likes.map (fun like => like.user)).Nodup

/-- No two posts of the store share an id. -/
def UniqueIds (s : Store) : Prop :=
  (s.posts.map (fun p => p.id)).Nodup

/-! ## Sample data -/

/-- A user, Alice. -/
def alice : User := { id := 1, name := "Alice", avatar := "alice.png" }

/-- A user, Bob. -/
def bob : User := { id := 2, name := "Bob", avatar := "bob.png" }

/-- A post by Alice without likes or comments. -/
def hello : Post :=
  { id := 10, user := 1, text := "hello", name := "Alice", avatar := "alice.png",
    likes := [], comments := [], date := 0 }

/-- A store with one post and two users. -/
def store0 : Store := { posts := [hello], users := [alice, bob] }

/-- An environment in which no store call fails. -/
def env0 : Env :=
  { userRead := none, postRead := none, postWrite := none, newId := 100, now := 5 }

/-- An environment in which every write fails. -/
def envWriteDown : Env :=
  { userRead := none, postRead := none, postWrite := some ⟨none⟩, newId := 100, now := 5 }

/-- A post by Alice with a comment by Bob. -/
def commented : Post :=
  { id := 10, user := 1, text := "hello", name := "Alice", avatar := "alice.png",
    likes := [],
    comments := [⟨30, 2, "hi", "Bob", "bob.png", 1⟩],
    date := 0 }

/-- A store with the commented post. -/
def store1 : Store := { posts := [commented], users := [alice, bob] }

/-! ## Lists: the facts the handlers rest on -/

theorem filter_length_pos_iff {α : Type} (q : α → Prop) [DecidablePred q] (xs : List α) :
    (xs.filter (fun a => decide (q a))).length > 0 ↔ ∃ a ∈ xs, q a := by
  induction xs with
  | nil => simp
  | cons x xs ih =>
    by_cases hx : q x
    · simp [List.filter_cons, hx]
    · simp only [List.filter_cons, hx, decide_False, Bool.false_eq_true, ↓reduceIte, ih,
        List.mem_cons, exists_eq_or_imp, false_or]

theorem filter_length_zero_iff {α : Type} (q : α → Prop) [DecidablePred q] (xs : List α) :
    (xs.filter (fun a => decide (q a))).length = 0 ↔ ∀ a ∈ xs, ¬ q a := by
  have h := filter_length_pos_iff q xs
  constructor
  · intro h0 a ha hq
    have : (xs.filter (fun a => decide (q a))).length > 0 := h.mpr ⟨a, ha, hq⟩
    omega
  · intro hall
    by_contra hne
    obtain ⟨a, ha, hq⟩ := h.mp (Nat.pos_of_ne_zero hne)
    exact hall a ha hq

/-- A list with an element whose key is `x` splits at the first such element. -/
theorem exists_first_split {α β : Type} [DecidableEq β] (f : α → β) (x : β) (xs : List α)
    (h : ∃ a ∈ xs, f a = x) :
    ∃ before a after, xs = before ++ a :: after ∧ f a = x ∧ ∀ b ∈ before, f b ≠ x := by
  induction xs with
  | nil => simp at h
  | cons y ys ih =>
    by_cases hy : f y = x
    · exact ⟨[], y, ys, rfl, hy, by simp⟩
    · have h' : ∃ a ∈ ys, f a = x := by
        obtain ⟨a, ha, hax⟩ := h
        rcases List.mem_cons.mp ha with rfl | ha'
        · exact absurd hax hy
        · exact ⟨a, ha', hax⟩
      obtain ⟨before, a, after, hsplit, hax, hbefore⟩ := ih h'
      refine ⟨y :: before, a, after, by simp [hsplit], hax, ?_⟩
      intro b hb
      rcases List.mem_cons.mp hb with rfl | hb'
      · exact hy
      · exact hbefore b hb'

/-- The index `indexOf` finds is that of the first element equal to `x`. -/
theorem indexOf_first {α β : Type} [DecidableEq β] (f : α → β) (x : β)
    (before : List α) (a : α) (after : List α)
    (ha : f a = x) (hbefore : ∀ b ∈ before, f b ≠ x) :
    indexOf x ((before ++ a :: after).map f) = (before.length : Int) := by
  induction before with
  | nil => simp [indexOf, ha]
  | cons y ys ih =>
    have hy : f y ≠ x := hbefore y (List.mem_cons_self _ _)
    have ih' := ih (fun b hb => hbefore b (List.mem_cons_of_mem _ hb))
    have hlen : ¬ ((ys.length : Int) < 0) := by omega
    show indexOf x (f y :: (ys ++ a :: after).map f) = _
    simp only [indexOf, hy, ↓reduceIte, ih', hlen, List.length_cons]
    push_cast
    ring

/-- Cutting one element at the index of `a` leaves what stands around it. -/
theorem splice_at_length {α : Type} (before : List α) (a : α) (after : List α) :
    splice (before ++ a :: after) (before.length : Int) 1 = before ++ after := by
  unfold splice
  have hlt : ¬ ((before.length : Int) < 0) := by omega
  have hmin : (min (before.length : Int) ((before ++ a :: after).length : Int)).toNat
      = before.length := by
    have : (before.length : Int) ≤ ((before ++ a :: after).length : Int) := by
      simp only [List.length_append, List.length_cons]
      push_cast
      omega
    rw [min_eq_left this]
    simp
  simp only [hlt, ↓reduceIte, hmin]
  rw [List.take_left' rfl]
  have : before.length + 1 = (before ++ [a]).length := by simp
  rw [this]
  have h2 : before ++ a :: after = (before ++ [a]) ++ after := by simp
  rw [h2, List.drop_left' rfl]

/-- What `splice` leaves is a sublist of the array. -/
theorem splice_sublist {α : Type} (xs : List α) (start : Int) (n : Nat) :
    (splice xs start n).Sublist xs := by
  have aux : ∀ k : Nat, (xs.take k ++ xs.drop (k + n)).Sublist xs := by
    intro k
    have h : (xs.take k ++ xs.drop (k + n)).Sublist (xs.take k ++ xs.drop k) := by
      apply List.Sublist.append_left
      rw [← List.drop_drop]
      exact List.drop_sublist _ _
    rwa [List.take_append_drop] at h
  exact aux _

/-! ## The store: the facts the handlers rest on -/

theorem find_replaceDoc (p q : Post) (posts : List Post)
    (h : posts.find? (fun r => decide (r.id = p.id)) = some q) :
    (replaceDoc p posts).find? (fun r => decide (r.id = p.id)) = some p := by
  induction posts with
  | nil => simp at h
  | cons r rs ih =>
    by_cases hr : r.id = p.id
    · simp [replaceDoc, hr]
    · have h' : rs.find? (fun r => decide (r.id = p.id)) = some q := by
        simpa [List.find?_cons, hr] using h
      simp [replaceDoc, hr, List.find?_cons, ih h']

theorem find_some_id {pid : ObjectId} {p : Post} {posts : List Post}
    (h : posts.find? (fun r => decide (r.id = pid)) = some p) : p.id = pid := by
  have := List.find?_some h
  simpa using this

theorem mem_replaceDoc {p q : Post} {posts : List Post} (h : q ∈ replaceDoc p posts) :
    q = p ∨ q ∈ posts := by
  induction posts with
  | nil => simp [replaceDoc] at h
  | cons r rs ih =>
    unfold replaceDoc at h
    by_cases hr : r.id = p.id
    · simp only [hr, ↓reduceIte, List.mem_cons] at h
      rcases h with h | h
      · exact Or.inl h
      · exact Or.inr (List.mem_cons_of_mem _ h)
    · simp only [hr, ↓reduceIte, List.mem_cons] at h
      rcases h with h | h
      · exact Or.inr (h ▸ List.mem_cons_self _ _)
      · rcases ih h with h | h
        · exact Or.inl h
        · exact Or.inr (List.mem_cons_of_mem _ h)

theorem removeDoc_sublist (id : ObjectId) (posts : List Post) :
    (removeDoc id posts).Sublist posts := by
  induction posts with
  | nil => simp [removeDoc]
  | cons r rs ih =>
    unfold removeDoc
    by_cases hr : r.id = id
    · simp [hr]
    · simp only [hr, ↓reduceIte]
      exact ih.cons₂ r

/-- Replacing a document by one of the same id, where it stands first among
those of its id, and back again, gives the list back. -/
theorem replaceDoc_replaceDoc (p p' : Post) (posts : List Post) (hid : p'.id = p.id)
    (h : posts.find? (fun r => decide (r.id = p.id)) = some p) :
    replaceDoc p (replaceDoc p' posts) = posts := by
  induction posts with
  | nil => simp at h
  | cons r rs ih =>
    by_cases hr : r.id = p.id
    · have hrp : r = p := by simpa [List.find?_cons, hr] using h
      subst hrp
      simp [replaceDoc, hid]
    · have h' : rs.find? (fun r => decide (r.id = p.id)) = some p := by
        simpa [List.find?_cons, hr] using h
      simp [replaceDoc, hid, hr, ih h']

/-! ## The outcome of each handler, case by case -/

theorem like_post_liked (env : Env) (s : Store) (pid uid : ObjectId) (p : Post)
    (hread : env.postRead = none)
    (hp : s.posts.find? (fun q => decide (q.id = pid)) = some p)
    (hl : ∃ l ∈ p.likes, l.user = uid) :
    like_post env s (.valid pid) uid =
      ⟨⟨400, .msg "Post already liked"⟩, s, [.postFindById (.valid pid)]⟩ := by
  have hpos := (filter_length_pos_iff (fun l : Like => l.user = uid) p.likes).mpr hl
  simp only [like_post, like_post.tryBlock, Post.findById, hread, hp, hpos, ↓reduceIte, catchAll]

theorem like_post_fresh (env : Env) (s : Store) (pid uid : ObjectId) (p : Post)
    (hread : env.postRead = none) (hwrite : env.postWrite = none)
    (hp : s.posts.find? (fun q => decide (q.id = pid)) = some p)
    (hl : ∀ l ∈ p.likes, l.user ≠ uid) :
    like_post env s (.valid pid) uid =
      ⟨⟨200, .likes ({ user := uid } :: p.likes)⟩,
        { s with posts := replaceDoc { p with likes := { user := uid } :: p.likes } s.posts },
        [.postFindById (.valid pid), .postSave p.id]⟩ := by
  have hzero := (filter_length_zero_iff (fun l : Like => l.user = uid) p.likes).mpr hl
  have hnot : ¬ ((p.likes.filter (fun l => decide (l.user = uid))).length > 0) := by omega
  simp only [like_post, like_post.tryBlock, Post.findById, hread, hp, hnot, ↓reduceIte,
    Post.save, hwrite, catchAll]

/-- After a save the lookup by id yields the saved document. -/
theorem find_after_save (posts : List Post) (pid : ObjectId) (p p' : Post) (hid : p'.id = p.id)
    (hp : posts.find? (fun q => decide (q.id = pid)) = some p) :
    (replaceDoc p' posts).find? (fun q => decide (q.id = pid)) = some p' := by
  have hpid : p.id = pid := find_some_id hp
  have := find_replaceDoc p' p posts (by simpa [hid, hpid] using hp)
  simpa [hid, hpid] using this

theorem unlike_post_absent (env : Env) (s : Store) (pid uid : ObjectId) (p : Post)
    (hread : env.postRead = none)
    (hp : s.posts.find? (fun q => decide (q.id = pid)) = some p)
    (hl : ∀ l ∈ p.likes, l.user ≠ uid) :
    unlike_post env s (.valid pid) uid =
      ⟨⟨400, .msg "Post has not yet been liked"⟩, s, [.postFindById (.valid pid)]⟩ := by
  have hzero := (filter_length_zero_iff (fun l : Like => l.user = uid) p.likes).mpr hl
  simp only [unlike_post, unlike_post.tryBlock, Post.findById, hread, hp, hzero, ↓reduceIte,
    catchAll]

theorem unlike_post_present (env : Env) (s : Store) (pid uid : ObjectId) (p : Post)
    (before : List Like) (l : Like) (after : List Like)
    (hread : env.postRead = none) (hwrite : env.postWrite = none)
    (hp : s.posts.find? (fun q => decide (q.id = pid)) = some p)
    (hsplit : p.likes = before ++ l :: after) (hl : l.user = uid)
    (hbefore : ∀ b ∈ before, b.user ≠ uid) :
    unlike_post env s (.valid pid) uid =
      ⟨⟨200, .likes (before ++ after)⟩,
        { s with posts := replaceDoc { p with likes := before ++ after } s.posts },
        [.postFindById (.valid pid), .postSave p.id]⟩ := by
  have hex : ∃ a ∈ p.likes, a.user = uid := ⟨l, by simp [hsplit], hl⟩
  have hpos := (filter_length_pos_iff (fun l : Like => l.user = uid) p.likes).mpr hex
  have hne : ¬ ((p.likes.filter (fun l => decide (l.user = uid))).length = 0) := by omega
  have hidx : indexOf uid (p.likes.map (fun like => like.user)) = (before.length : Int) := by
    rw [hsplit]
    exact indexOf_first (fun like : Like => like.user) uid before l after hl hbefore
  have hspl : splice p.likes (before.length : Int) 1 = before ++ after := by
    rw [hsplit]
    exact splice_at_length before l after
  simp only [unlike_post, unlike_post.tryBlock, Post.findById, hread, hp, hne, ↓reduceIte,
    Post.save, hwrite, catchAll, hidx, hspl]

/-! ## Likes -/

/-- C1: like_post (PUT /like/:id) on a stored post `p`, when the store calls do
not fail: if a like of `p` is by the user the answer is 400 'Post already
liked', the store is unchanged and no write is issued; otherwise the stored
post becomes `p` with the new like in front of the old likes, the answer is
200 with exactly that sequence, and a second like_post by the same user right
after it answers 400 'Post already liked' and changes nothing. -/
theorem like_post_spec (env : Env) (s : Store) (pid uid : ObjectId) (p : Post)
    (hread : env.postRead = none) (hwrite : env.postWrite = none)
    (hp : s.posts.find? (fun q => decide (q.id = pid)) = some p) :
    ((∃ l ∈ p.likes, l.user = uid) →
      (like_post env s (.valid pid) uid).res = ⟨400, .msg "Post already liked"⟩ ∧
      (like_post env s (.valid pid) uid).store = s ∧
      ∀ op ∈ (like_post env s (.valid pid) uid).log, op.isWrite = false) ∧
    ((∀ l ∈ p.likes, l.user ≠ uid) →
      (like_post env s (.valid pid) uid).res = ⟨200, .likes ({ user := uid } :: p.likes)⟩ ∧
      (like_post env s (.valid pid) uid).store =
        { s with posts := replaceDoc { p with likes := { user := uid } :: p.likes } s.posts } ∧
      (like_post env s (.valid pid) uid).store.posts.find? (fun q => decide (q.id = pid)) =
        some { p with likes := { user := uid } :: p.likes } ∧
      ∀ env' : Env, env'.postRead = none →
        (like_post env' (like_post env s (.valid pid) uid).store (.valid pid) uid).res =
          ⟨400, .msg "Post already liked"⟩ ∧
        (like_post env' (like_post env s (.valid pid) uid).store (.valid pid) uid).store =
          (like_post env s (.valid pid) uid).store) := by
  constructor
  · intro hl
    rw [like_post_liked env s pid uid p hread hp hl]
    simp [StoreOp.isWrite]
  · intro hl
    have hfind := find_after_save s.posts pid p { p with likes := { user := uid } :: p.likes } rfl hp
    rw [like_post_fresh env s pid uid p hread hwrite hp hl]
    refine ⟨rfl, rfl, hfind, ?_⟩
    intro env' henv'
    rw [like_post_liked env' _ pid uid _ henv' hfind ⟨{ user := uid }, by simp, rfl⟩]
    exact ⟨rfl, rfl⟩

/-- Bob likes Alice's post: the answer is 200 with his like alone, and his
second like answers 400. -/
theorem like_post_spec_witness :
    env0.postRead = none ∧ env0.postWrite = none ∧
    store0.posts.find? (fun q => decide (q.id = 10)) = some hello ∧
    (like_post env0 store0 (.valid 10) 2).res = ⟨200, .likes [{ user := 2 }]⟩ ∧
    (like_post env0 (like_post env0 store0 (.valid 10) 2).store (.valid 10) 2).res =
      ⟨400, .msg "Post already liked"⟩ :=
  have h := (like_post_spec env0 store0 10 2 hello rfl rfl (by decide)).2 (by decide)
  ⟨rfl, rfl, by decide, h.1, (h.2.2.2 env0 rfl).1⟩

/-- C3: unlike_post (PUT /unlike/:id) on a stored post `p`, when the store
calls do not fail: if no like of `p` is by the user the answer is 400 'Post
has not yet been liked', the store is unchanged and no write is issued;
otherwise the likes split at the first like of the user, and the handler
stores and returns them without that one like, one shorter and in the old
order. An unlike_post right after a successful like_post by the same user
returns the likes as they were before the like. -/
theorem unlike_removes_first_like (env : Env) (s : Store) (pid uid : ObjectId) (p : Post)
    (hread : env.postRead = none) (hwrite : env.postWrite = none)
    (hp : s.posts.find? (fun q => decide (q.id = pid)) = some p) :
    ((∀ l ∈ p.likes, l.user ≠ uid) →
      (unlike_post env s (.valid pid) uid).res = ⟨400, .msg "Post has not yet been liked"⟩ ∧
      (unlike_post env s (.valid pid) uid).store = s ∧
      ∀ op ∈ (unlike_post env s (.valid pid) uid).log, op.isWrite = false) ∧
    ((∃ l ∈ p.likes, l.user = uid) →
      ∃ before l after, p.likes = before ++ l :: after ∧ l.user = uid ∧
        (∀ b ∈ before, b.user ≠ uid) ∧
        (unlike_post env s (.valid pid) uid).res = ⟨200, .likes (before ++ after)⟩ ∧
        (unlike_post env s (.valid pid) uid).store =
          { s with posts := replaceDoc { p with likes := before ++ after } s.posts } ∧
        (unlike_post env s (.valid pid) uid).store.posts.find? (fun q => decide (q.id = pid)) =
          some { p with likes := before ++ after } ∧
        (before ++ after).length + 1 = p.likes.length) ∧
    ((∀ l ∈ p.likes, l.user ≠ uid) →
      ∀ env' : Env, env'.postRead = none → env'.postWrite = none →
        (unlike_post env' (like_post env s (.valid pid) uid).store (.valid pid) uid).res =
          ⟨200, .likes p.likes⟩ ∧
        (unlike_post env' (like_post env s (.valid pid) uid).store (.valid pid)
          uid).store.posts.find? (fun q => decide (q.id = pid)) = some p) := by
  refine ⟨?_, ?_, ?_⟩
  · intro hl
    rw [unlike_post_absent env s pid uid p hread hp hl]
    simp [StoreOp.isWrite]
  · intro hl
    obtain ⟨before, l, after, hsplit, hlu, hbefore⟩ :=
      exists_first_split (fun like : Like => like.user) uid p.likes hl
    refine ⟨before, l, after, hsplit, hlu, hbefore, ?_⟩
    rw [unlike_post_present env s pid uid p before l after hread hwrite hp hsplit hlu hbefore]
    refine ⟨rfl, rfl, find_after_save s.posts pid p { p with likes := before ++ after } rfl hp, ?_⟩
    simp only [hsplit, List.length_append, List.length_cons]
    omega
  · intro hl env' hread' hwrite'
    have hfind := find_after_save s.posts pid p { p with likes := { user := uid } :: p.likes } rfl hp
    rw [like_post_fresh env s pid uid p hread hwrite hp hl]
    rw [unlike_post_present env' _ pid uid { p with likes := { user := uid } :: p.likes }
      [] { user := uid } p.likes hread' hwrite' hfind rfl rfl (by simp)]
    refine ⟨rfl, ?_⟩
    have := find_after_save _ pid { p with likes := { user := uid } :: p.likes } p rfl hfind
    simpa using this

/-- Bob likes Alice's post and takes the like back: the likes are empty again,
and a further unlike_post answers 400. -/
theorem unlike_removes_first_like_witness :
    env0.postRead = none ∧ env0.postWrite = none ∧
    store0.posts.find? (fun q => decide (q.id = 10)) = some hello ∧
    (unlike_post env0 store0 (.valid 10) 2).res = ⟨400, .msg "Post has not yet been liked"⟩ ∧
    (unlike_post env0 (like_post env0 store0 (.valid 10) 2).store (.valid 10) 2).res =
      ⟨200, .likes []⟩ :=
  have h := unlike_removes_first_like env0 store0 10 2 hello rfl rfl (by decide)
  ⟨rfl, rfl, by decide, (h.1 (by decide)).1, (h.2.2 (by decide) env0 rfl rfl).1⟩

/-! ## Reading and deleting a post -/

theorem find_removeDoc_ne (pid n : ObjectId) (posts : List Post) (hn : n ≠ pid) :
    (removeDoc pid posts).find? (fun q => decide (q.id = n)) =
      posts.find? (fun q => decide (q.id = n)) := by
  induction posts with
  | nil => rfl
  | cons r rs ih =>
    unfold removeDoc
    by_cases hr : r.id = pid
    · have hrn : ¬ r.id = n := fun h => hn (h ▸ hr)
      simp [hr, List.find?_cons, hrn, hn.symm]
    · simp only [hr, ↓reduceIte, List.find?_cons, ih]

theorem find_removeDoc_self (pid : ObjectId) (posts : List Post)
    (huniq : (posts.map (fun p => p.id)).Nodup) :
    (removeDoc pid posts).find? (fun q => decide (q.id = pid)) = none := by
  induction posts with
  | nil => rfl
  | cons r rs ih =>
    have hrs : (rs.map (fun p => p.id)).Nodup := (List.nodup_cons.mp huniq).2
    have hr' : r.id ∉ rs.map (fun p => p.id) := (List.nodup_cons.mp huniq).1
    unfold removeDoc
    by_cases hr : r.id = pid
    · simp only [hr, ↓reduceIte]
      rw [List.find?_eq_none]
      intro q hq
      have hne : q.id ≠ pid := by
        intro hqid
        apply hr'
        rw [hr, ← hqid]
        exact List.mem_map_of_mem _ hq
      simpa using hne
    · simp only [hr, ↓reduceIte, List.find?_cons, decide_False, ih hrs]

theorem mem_removeDoc_iff (pid : ObjectId) (posts : List Post) (q : Post)
    (huniq : (posts.map (fun p => p.id)).Nodup) :
    q ∈ removeDoc pid posts ↔ q ∈ posts ∧ q.id ≠ pid := by
  induction posts with
  | nil => simp [removeDoc]
  | cons r rs ih =>
    have hrs : (rs.map (fun p => p.id)).Nodup := (List.nodup_cons.mp huniq).2
    have hr' : r.id ∉ rs.map (fun p => p.id) := (List.nodup_cons.mp huniq).1
    unfold removeDoc
    by_cases hr : r.id = pid
    · simp only [hr, ↓reduceIte, List.mem_cons]
      constructor
      · intro hq
        refine ⟨Or.inr hq, ?_⟩
        intro hqid
        apply hr'
        rw [hr, ← hqid]
        exact List.mem_map_of_mem _ hq
      · rintro ⟨hq | hq, hne⟩
        · exact absurd (hq ▸ hr) hne
        · exact hq
    · simp only [hr, ↓reduceIte, List.mem_cons, ih hrs]
      constructor
      · rintro (hq | ⟨hq, hne⟩)
        · exact ⟨Or.inl hq, hq ▸ hr⟩
        · exact ⟨Or.inr hq, hne⟩
      · rintro ⟨hq | hq, hne⟩
        · exact Or.inl hq
        · exact Or.inr ⟨hq, hne⟩

theorem get_post_found (env : Env) (s : Store) (pid : ObjectId) (p : Post)
    (hread : env.postRead = none)
    (hp : s.posts.find? (fun q => decide (q.id = pid)) = some p) :
    get_post env s (.valid pid) = ⟨⟨200, .post p⟩, s, [.postFindById (.valid pid)]⟩ := by
  simp only [get_post, get_post.tryBlock, Post.findById, hread, hp, catchObjectId]

theorem get_post_absent (env : Env) (s : Store) (pid : ObjectId)
    (hread : env.postRead = none)
    (hp : s.posts.find? (fun q => decide (q.id = pid)) = none) :
    get_post env s (.valid pid) =
      ⟨⟨404, .msg "Posts not found"⟩, s, [.postFindById (.valid pid)]⟩ := by
  simp only [get_post, get_post.tryBlock, Post.findById, hread, hp, catchObjectId]

theorem get_post_malformed (env : Env) (s : Store) :
    get_post env s .malformed =
      ⟨⟨404, .msg "Posts not found"⟩, s, [.postFindById .malformed]⟩ := by
  simp [get_post, get_post.tryBlock, Post.findById, catchObjectId, CastError]

theorem delete_post_absent (env : Env) (s : Store) (pid uid : ObjectId)
    (hread : env.postRead = none)
    (hp : s.posts.find? (fun q => decide (q.id = pid)) = none) :
    delete_post env s (.valid pid) uid =
      ⟨⟨404, .msg "Post not found"⟩, s, [.postFindById (.valid pid)]⟩ := by
  simp only [delete_post, delete_post.tryBlock, Post.findById, hread, hp, catchObjectId]

theorem delete_post_malformed (env : Env) (s : Store) (uid : ObjectId) :
    delete_post env s .malformed uid =
      ⟨⟨404, .msg "Post not found"⟩, s, [.postFindById .malformed]⟩ := by
  simp [delete_post, delete_post.tryBlock, Post.findById, catchObjectId, CastError]

theorem delete_post_foreign (env : Env) (s : Store) (pid uid : ObjectId) (p : Post)
    (hread : env.postRead = none)
    (hp : s.posts.find? (fun q => decide (q.id = pid)) = some p) (hu : p.user ≠ uid) :
    delete_post env s (.valid pid) uid =
      ⟨⟨401, .msg "User not authorized"⟩, s, [.postFindById (.valid pid)]⟩ := by
  simp only [delete_post, delete_post.tryBlock, Post.findById, hread, hp, catchObjectId, ne_eq,
    hu, not_false_eq_true, ↓reduceIte]

theorem delete_post_owner (env : Env) (s : Store) (pid uid : ObjectId) (p : Post)
    (hread : env.postRead = none) (hwrite : env.postWrite = none)
    (hp : s.posts.find? (fun q => decide (q.id = pid)) = some p) (hu : p.user = uid) :
    delete_post env s (.valid pid) uid =
      ⟨⟨200, .str "Post removed"⟩, { s with posts := removeDoc pid s.posts },
        [.postFindById (.valid pid), .postRemove pid]⟩ := by
  have hid : p.id = pid := find_some_id hp
  simp only [delete_post, delete_post.tryBlock, Post.findById, hread, hp, catchObjectId, ne_eq,
    hu, not_true_eq_false, ↓reduceIte, Post.remove, hwrite, hid]

/-- C8: get_post (GET /:id), when the read does not fail of its own: the
answer is 200 with the stored post exactly when a post has the id; an id of
no post and a text that is no id both answer 404 with the one payload
'Posts not found'; the answer is never 500 and the store is unchanged. -/
theorem get_post_spec (env : Env) (s : Store) (id : IdParam)
    (hread : env.postRead = none) :
    (∀ n p, id = .valid n → s.posts.find? (fun q => decide (q.id = n)) = some p →
      (get_post env s id).res = ⟨200, .post p⟩) ∧
    (∀ n, id = .valid n → s.posts.find? (fun q => decide (q.id = n)) = none →
      (get_post env s id).res = ⟨404, .msg "Posts not found"⟩) ∧
    (id = .malformed → (get_post env s id).res = ⟨404, .msg "Posts not found"⟩) ∧
    ((get_post env s id).res.status = 200 ↔
      ∃ n p, id = .valid n ∧ s.posts.find? (fun q => decide (q.id = n)) = some p) ∧
    (get_post env s id).res.status ≠ 500 ∧
    (get_post env s id).store = s := by
  cases id with
  | malformed =>
    rw [get_post_malformed]
    simp
  | valid n =>
    cases hfind : s.posts.find? (fun q => decide (q.id = n)) with
    | none =>
      rw [get_post_absent env s n hread hfind]
      refine ⟨?_, fun _ _ _ => rfl, (fun h => by cases h), ?_, by simp, rfl⟩
      · intro m q hm hq
        cases hm
        rw [hfind] at hq
        cases hq
      · constructor
        · intro h
          simp at h
        · rintro ⟨m, q, hm, hq⟩
          cases hm
          rw [hfind] at hq
          cases hq
    | some p =>
      rw [get_post_found env s n p hread hfind]
      refine ⟨?_, ?_, (fun h => by cases h), ?_, by simp, rfl⟩
      · intro m q hm hq
        cases hm
        rw [hfind] at hq
        cases hq
        rfl
      · intro m hm hq
        cases hm
        rw [hfind] at hq
        cases hq
      · exact ⟨fun _ => ⟨n, p, rfl, hfind⟩, fun _ => rfl⟩

/-- The post of Alice is returned under its id; another id and a text that is
no id answer the same 404. -/
theorem get_post_spec_witness :
    env0.postRead = none ∧
    (get_post env0 store0 (.valid 10)).res = ⟨200, .post hello⟩ ∧
    (get_post env0 store0 (.valid 11)).res = ⟨404, .msg "Posts not found"⟩ ∧
    (get_post env0 store0 .malformed).res = ⟨404, .msg "Posts not found"⟩ :=
  ⟨rfl, (get_post_spec env0 store0 (.valid 10) rfl).1 10 hello rfl (by decide),
    (get_post_spec env0 store0 (.valid 11) rfl).2.1 11 rfl (by decide),
    (get_post_spec env0 store0 .malformed rfl).2.2.1 rfl⟩

/-- C4: delete_post (DELETE /:id), when the store calls do not fail and no two
stored posts share an id: an id of no post, and a text that is no id, answer
404 and leave the store unchanged; a post of another author answers 401 'User
not authorized' and leaves the store unchanged, whatever the post holds; the
author gets 'Post removed', after which no post has the id, the lookup of
every other id is as before, the stored posts are exactly the old ones of
another id, and get_post on the id answers 404. -/
theorem delete_post_spec (env : Env) (s : Store) (pid uid : ObjectId)
    (hread : env.postRead = none) (hwrite : env.postWrite = none) (huniq : UniqueIds s) :
    (s.posts.find? (fun q => decide (q.id = pid)) = none →
      (delete_post env s (.valid pid) uid).res = ⟨404, .msg "Post not found"⟩ ∧
      (delete_post env s (.valid pid) uid).store = s) ∧
    ((delete_post env s .malformed uid).res = ⟨404, .msg "Post not found"⟩ ∧
      (delete_post env s .malformed uid).store = s) ∧
    (∀ p, s.posts.find? (fun q => decide (q.id = pid)) = some p → p.user ≠ uid →
      (delete_post env s (.valid pid) uid).res = ⟨401, .msg "User not authorized"⟩ ∧
      (delete_post env s (.valid pid) uid).store = s) ∧
    (∀ p, s.posts.find? (fun q => decide (q.id = pid)) = some p → p.user = uid →
      (delete_post env s (.valid pid) uid).res = ⟨200, .str "Post removed"⟩ ∧
      (delete_post env s (.valid pid) uid).store.posts.find? (fun q => decide (q.id = pid)) =
        none ∧
      (∀ q, q ∈ (delete_post env s (.valid pid) uid).store.posts ↔ q ∈ s.posts ∧ q.id ≠ pid) ∧
      (∀ n, n ≠ pid →
        (delete_post env s (.valid pid) uid).store.posts.find? (fun q => decide (q.id = n)) =
          s.posts.find? (fun q => decide (q.id = n))) ∧
      (delete_post env s (.valid pid) uid).store.users = s.users ∧
      ∀ env' : Env, env'.postRead = none →
        (get_post env' (delete_post env s (.valid pid) uid).store (.valid pid)).res =
          ⟨404, .msg "Posts not found"⟩) := by
  refine ⟨?_, ?_, ?_, ?_⟩
  · intro hp
    rw [delete_post_absent env s pid uid hread hp]
    exact ⟨rfl, rfl⟩
  · rw [delete_post_malformed]
    exact ⟨rfl, rfl⟩
  · intro p hp hu
    rw [delete_post_foreign env s pid uid p hread hp hu]
    exact ⟨rfl, rfl⟩
  · intro p hp hu
    have hgone := find_removeDoc_self pid s.posts huniq
    rw [delete_post_owner env s pid uid p hread hwrite hp hu]
    refine ⟨rfl, hgone, fun q => mem_removeDoc_iff pid s.posts q huniq,
      fun n hn => find_removeDoc_ne pid n s.posts hn, rfl, ?_⟩
    · intro env' hread'
      rw [get_post_absent env' _ pid hread' hgone]

/-- Bob may not delete Alice's post; Alice may, and get_post then answers
404. -/
theorem delete_post_spec_witness :
    env0.postRead = none ∧ env0.postWrite = none ∧ UniqueIds store0 ∧
    (delete_post env0 store0 (.valid 10) 2).res = ⟨401, .msg "User not authorized"⟩ ∧
    (delete_post env0 store0 (.valid 10) 1).res = ⟨200, .str "Post removed"⟩ ∧
    (get_post env0 (delete_post env0 store0 (.valid 10) 1).store (.valid 10)).res =
      ⟨404, .msg "Posts not found"⟩ :=
  have hu : UniqueIds store0 := by simp [UniqueIds, store0, hello]
  have h := delete_post_spec env0 store0 10 1 rfl rfl hu
  ⟨rfl, rfl, hu,
    ((delete_post_spec env0 store0 10 2 rfl rfl hu).2.2.1 hello (by decide) (by decide)).1,
    (h.2.2.2 hello (by decide) rfl).1,
    (h.2.2.2 hello (by decide) rfl).2.2.2.2.2 env0 rfl⟩

/-! ## Comments -/

/-- The search by key finds the element at which the list splits first. -/
theorem find_first {α β : Type} [DecidableEq β] (f : α → β) (x : β)
    (before : List α) (a : α) (after : List α)
    (ha : f a = x) (hbefore : ∀ b ∈ before, f b ≠ x) :
    (before ++ a :: after).find? (fun c => decide (f c = x)) = some a := by
  induction before with
  | nil => simp [ha]
  | cons y ys ih =>
    have hy : f y ≠ x := hbefore y (List.mem_cons_self _ _)
    have ih' := ih (fun b hb => hbefore b (List.mem_cons_of_mem _ hb))
    simpa [List.find?_cons, hy] using ih'

theorem remove_comment_missing (env : Env) (s : Store) (pid uid : ObjectId) (cid : IdParam)
    (p : Post) (hread : env.postRead = none)
    (hp : s.posts.find? (fun q => decide (q.id = pid)) = some p)
    (hc : p.comments.find? (fun c => decide (IdParam.valid c.id = cid)) = none) :
    remove_comment env s (.valid pid) cid uid =
      ⟨⟨404, .msg "Comment does not exist"⟩, s, [.postFindById (.valid pid)]⟩ := by
  simp only [remove_comment, remove_comment.tryBlock, Post.findById, hread, hp, hc, catchAll]

theorem remove_comment_foreign (env : Env) (s : Store) (pid uid : ObjectId) (cid : IdParam)
    (p : Post) (c : Comment) (hread : env.postRead = none)
    (hp : s.posts.find? (fun q => decide (q.id = pid)) = some p)
    (hc : p.comments.find? (fun c => decide (IdParam.valid c.id = cid)) = some c)
    (hu : c.user ≠ uid) :
    remove_comment env s (.valid pid) cid uid =
      ⟨⟨401, .msg "Not authorized"⟩, s, [.postFindById (.valid pid)]⟩ := by
  simp only [remove_comment, remove_comment.tryBlock, Post.findById, hread, hp, hc, catchAll,
    ne_eq, hu, not_false_eq_true, ↓reduceIte]

theorem remove_comment_author (env : Env) (s : Store) (pid uid : ObjectId) (cid : IdParam)
    (p : Post) (before : List Comment) (c : Comment) (after : List Comment)
    (hread : env.postRead = none) (hwrite : env.postWrite = none)
    (hp : s.posts.find? (fun q => decide (q.id = pid)) = some p)
    (hsplit : p.comments = before ++ c :: after) (hc : IdParam.valid c.id = cid)
    (hbefore : ∀ b ∈ before, IdParam.valid b.id ≠ cid) (hu : c.user = uid) :
    remove_comment env s (.valid pid) cid uid =
      ⟨⟨200, .comments (before ++ after)⟩,
        { s with posts := replaceDoc { p with comments := before ++ after } s.posts },
        [.postFindById (.valid pid), .postSave p.id]⟩ := by
  have hfind : p.comments.find? (fun c => decide (IdParam.valid c.id = cid)) = some c := by
    rw [hsplit]
    exact find_first (fun c : Comment => IdParam.valid c.id) cid before c after hc hbefore
  have hidx : indexOf cid (p.comments.map (fun c => IdParam.valid c.id)) =
      (before.length : Int) := by
    rw [hsplit]
    exact indexOf_first (fun c : Comment => IdParam.valid c.id) cid before c after hc hbefore
  have hspl : splice p.comments (before.length : Int) 1 = before ++ after := by
    rw [hsplit]
    exact splice_at_length before c after
  simp only [remove_comment, remove_comment.tryBlock, Post.findById, hread, hp, hfind, catchAll,
    ne_eq, hu, not_true_eq_false, ↓reduceIte, hidx, hspl, Post.save, hwrite]

theorem add_comment_ok (env : Env) (s : Store) (pid uid : ObjectId) (p : Post) (u : User)
    (text : String) (htext : text ≠ "")
    (huread : env.userRead = none) (hread : env.postRead = none)
    (hwrite : env.postWrite = none)
    (hu : s.users.find? (fun v => decide (v.id = uid)) = some u)
    (hp : s.posts.find? (fun q => decide (q.id = pid)) = some p) :
    add_comment env s (.valid pid) uid (some text) =
      ⟨⟨200, .comments ((⟨env.newId, uid, text, u.name, u.avatar, env.now⟩ : Comment) :: p.comments)⟩,
        { s with posts := replaceDoc { p with comments :=
            (⟨env.newId, uid, text, u.name, u.avatar, env.now⟩ : Comment) :: p.comments } s.posts },
        [.userFindById uid, .postFindById (.valid pid), .postSave p.id]⟩ := by
  simp [add_comment, add_comment.tryBlock, validationResult, htext, User.findById, huread, hu,
    Post.findById, hread, hp, Post.save, hwrite, catchAll]

/-- A comment request that answers 200 had a user, and no store call of it
failed. -/
theorem add_comment_success (env : Env) (s : Store) (pid uid : ObjectId) (p : Post)
    (text : String)
    (hp : s.posts.find? (fun q => decide (q.id = pid)) = some p)
    (hadd : (add_comment env s (.valid pid) uid (some text)).res.status = 200) :
    text ≠ "" ∧ env.userRead = none ∧ env.postRead = none ∧ env.postWrite = none ∧
      ∃ u, s.users.find? (fun v => decide (v.id = uid)) = some u := by
  by_cases htext : text = ""
  · simp [add_comment, validationResult, htext] at hadd
  refine ⟨htext, ?_⟩
  cases huread : env.userRead with
  | some e =>
    simp [add_comment, add_comment.tryBlock, validationResult, htext, User.findById, huread,
      catchAll, serverError] at hadd
  | none =>
    cases hread : env.postRead with
    | some e =>
      simp [add_comment, add_comment.tryBlock, validationResult, htext, User.findById, huread,
        Post.findById, hread, catchAll, serverError] at hadd
    | none =>
      cases hu : s.users.find? (fun v => decide (v.id = uid)) with
      | none =>
        simp [add_comment, add_comment.tryBlock, validationResult, htext, User.findById,
          huread, hu, Post.findById, hread, hp, catchAll, serverError] at hadd
      | some u =>
        cases hwrite : env.postWrite with
        | some e =>
          simp [add_comment, add_comment.tryBlock, validationResult, htext, User.findById,
            huread, hu, Post.findById, hread, hp, Post.save, hwrite, catchAll,
            serverError] at hadd
        | none => exact ⟨rfl, rfl, rfl, u, rfl⟩

/-- C5: remove_comment (DELETE /comment/:id/:comment_id) on a stored post `p`,
when the read does not fail: if no comment of `p` has the id the answer is 404
'Comment does not exist'; if the comment with the id is by another user the
answer is 401 'Not authorized', also for the author of `p`; in both cases the
store is unchanged. The answer is 200 only when the requester wrote the
comment, and then (the write not failing) the handler stores and returns the
comments without the first one of that id, the others in their order. -/
theorem remove_comment_spec (env : Env) (s : Store) (pid uid : ObjectId) (cid : IdParam)
    (p : Post) (hread : env.postRead = none)
    (hp : s.posts.find? (fun q => decide (q.id = pid)) = some p) :
    ((∀ c ∈ p.comments, IdParam.valid c.id ≠ cid) →
      (remove_comment env s (.valid pid) cid uid).res = ⟨404, .msg "Comment does not exist"⟩ ∧
      (remove_comment env s (.valid pid) cid uid).store = s) ∧
    (∀ c, p.comments.find? (fun c => decide (IdParam.valid c.id = cid)) = some c →
      c.user ≠ uid →
      (remove_comment env s (.valid pid) cid uid).res = ⟨401, .msg "Not authorized"⟩ ∧
      (remove_comment env s (.valid pid) cid uid).store = s) ∧
    ((remove_comment env s (.valid pid) cid uid).res.status = 200 →
      ∃ c, p.comments.find? (fun c => decide (IdParam.valid c.id = cid)) = some c ∧
        c.user = uid) ∧
    (∀ c, p.comments.find? (fun c => decide (IdParam.valid c.id = cid)) = some c →
      c.user = uid → env.postWrite = none →
      ∃ before after, p.comments = before ++ c :: after ∧
        (∀ b ∈ before, IdParam.valid b.id ≠ cid) ∧
        (remove_comment env s (.valid pid) cid uid).res = ⟨200, .comments (before ++ after)⟩ ∧
        (remove_comment env s (.valid pid) cid uid).store =
          { s with posts := replaceDoc { p with comments := before ++ after } s.posts } ∧
        (remove_comment env s (.valid pid) cid uid).store.posts.find?
          (fun q => decide (q.id = pid)) = some { p with comments := before ++ after }) := by
  refine ⟨?_, ?_, ?_, ?_⟩
  · intro hnone
    have hc : p.comments.find? (fun c => decide (IdParam.valid c.id = cid)) = none := by
      rw [List.find?_eq_none]
      intro c hc
      simpa using hnone c hc
    rw [remove_comment_missing env s pid uid cid p hread hp hc]
    exact ⟨rfl, rfl⟩
  · intro c hc hu
    rw [remove_comment_foreign env s pid uid cid p c hread hp hc hu]
    exact ⟨rfl, rfl⟩
  · intro hok
    cases hc : p.comments.find? (fun c => decide (IdParam.valid c.id = cid)) with
    | none =>
      rw [remove_comment_missing env s pid uid cid p hread hp hc] at hok
      simp at hok
    | some c =>
      by_cases hu : c.user = uid
      · exact ⟨c, rfl, hu⟩
      · rw [remove_comment_foreign env s pid uid cid p c hread hp hc hu] at hok
        simp at hok
  · intro c hc hu hwrite
    have hex : ∃ a ∈ p.comments, IdParam.valid a.id = cid :=
      ⟨c, List.mem_of_find?_eq_some hc, by simpa using List.find?_some hc⟩
    obtain ⟨before, c', after, hsplit, hc', hbefore⟩ :=
      exists_first_split (fun c : Comment => IdParam.valid c.id) cid p.comments hex
    have hfind := find_first (fun c : Comment => IdParam.valid c.id) cid before c' after
      hc' hbefore
    have hcc : c' = c := by
      rw [← hsplit, hc] at hfind
      exact (Option.some.inj hfind).symm
    subst hcc
    refine ⟨before, after, hsplit, hbefore, ?_⟩
    rw [remove_comment_author env s pid uid cid p before c' after hread hwrite hp hsplit hc'
      hbefore hu]
    exact ⟨rfl, rfl, find_after_save s.posts pid p { p with comments := before ++ after } rfl hp⟩

/-- Alice owns the post but not Bob's comment on it: her remove_comment
answers 401, an id of no comment answers 404, and Bob's own answers 200 with
no comments left. -/
theorem remove_comment_spec_witness :
    env0.postRead = none ∧
    store1.posts.find? (fun q => decide (q.id = 10)) = some commented ∧
    commented.user = 1 ∧
    (remove_comment env0 store1 (.valid 10) (.valid 30) 1).res =
      ⟨401, .msg "Not authorized"⟩ ∧
    (remove_comment env0 store1 (.valid 10) (.valid 31) 1).res =
      ⟨404, .msg "Comment does not exist"⟩ ∧
    (remove_comment env0 store1 (.valid 10) (.valid 30) 2).res = ⟨200, .comments []⟩ :=
  ⟨rfl, by decide, rfl,
    ((remove_comment_spec env0 store1 10 1 (.valid 30) commented rfl (by decide)).2.1
      ⟨30, 2, "hi", "Bob", "bob.png", 1⟩ (by decide) (by decide)).1,
    ((remove_comment_spec env0 store1 10 1 (.valid 31) commented rfl (by decide)).1
      (by decide)).1,
    by decide⟩

/-- C6: add_comment followed by remove_comment: on a stored post `p` with
comments `cs`, if add_comment by a user with a non-empty text answers 200,
where the new comment gets the id the environment supplies, then
remove_comment of that id by the same user (its store calls not failing)
answers 200 with exactly `cs`, the stored post is `p` again, and so is the
whole store. -/
theorem comment_round_trip (env env' : Env) (s : Store) (pid uid : ObjectId) (p : Post)
    (text : String)
    (hp : s.posts.find? (fun q => decide (q.id = pid)) = some p)
    (hadd : (add_comment env s (.valid pid) uid (some text)).res.status = 200)
    (hread' : env'.postRead = none) (hwrite' : env'.postWrite = none) :
    (∃ c : Comment, c.id = env.newId ∧ c.user = uid ∧ c.text = text ∧
      (add_comment env s (.valid pid) uid (some text)).res =
        ⟨200, .comments (c :: p.comments)⟩) ∧
    (remove_comment env' (add_comment env s (.valid pid) uid (some text)).store
      (.valid pid) (.valid env.newId) uid).res = ⟨200, .comments p.comments⟩ ∧
    (remove_comment env' (add_comment env s (.valid pid) uid (some text)).store
      (.valid pid) (.valid env.newId) uid).store.posts.find?
        (fun q => decide (q.id = pid)) = some p ∧
    (remove_comment env' (add_comment env s (.valid pid) uid (some text)).store
      (.valid pid) (.valid env.newId) uid).store = s := by
  obtain ⟨htext, huread, hread, hwrite, u, hu⟩ := add_comment_success env s pid uid p text hp hadd
  have hpid : p.id = pid := find_some_id hp
  rw [add_comment_ok env s pid uid p u text htext huread hread hwrite hu hp]
  have hfind := find_after_save s.posts pid p { p with comments :=
    (⟨env.newId, uid, text, u.name, u.avatar, env.now⟩ : Comment) :: p.comments } rfl hp
  rw [remove_comment_author env' _ pid uid (.valid env.newId) _ [] _ p.comments hread' hwrite'
    hfind rfl rfl (by simp) rfl]
  have hback : replaceDoc p (replaceDoc { p with comments :=
      (⟨env.newId, uid, text, u.name, u.avatar, env.now⟩ : Comment) :: p.comments } s.posts) = s.posts :=
    replaceDoc_replaceDoc p _ s.posts rfl (by simpa [hpid] using hp)
  refine ⟨⟨_, rfl, rfl, rfl, rfl⟩, rfl, ?_, ?_⟩
  · simp only [List.nil_append]
    rw [hback]
    exact hp
  · simp only [List.nil_append]
    rw [hback]

/-- Bob comments on Alice's post, which already has a comment, and removes
his new comment: the comments are those from before. -/
theorem comment_round_trip_witness :
    store1.posts.find? (fun q => decide (q.id = 10)) = some commented ∧
    (add_comment env0 store1 (.valid 10) 2 (some "again")).res.status = 200 ∧
    (remove_comment env0 (add_comment env0 store1 (.valid 10) 2 (some "again")).store
      (.valid 10) (.valid 100) 2).res = ⟨200, .comments commented.comments⟩ :=
  ⟨by decide, by decide,
    (comment_round_trip env0 env0 store1 10 2 commented "again" (by decide) (by decide)
      rfl rfl).2.1⟩

/-! ## A post that is not there -/

/-- C7 (what the code does): when no post has the id, like_post, unlike_post,
add_comment (with a valid text) and remove_comment all read a property of
`null`, and the `catch` clause answers 500 'Server Error', not 404; the store
is unchanged. -/
theorem absent_post_answers_500 (env : Env) (s : Store) (pid uid : ObjectId) (cid : IdParam)
    (text : String) (htext : text ≠ "")
    (habs : s.posts.find? (fun q => decide (q.id = pid)) = none) :
    ((like_post env s (.valid pid) uid).res = ⟨500, .send "Server Error"⟩ ∧
      (like_post env s (.valid pid) uid).store = s) ∧
    ((unlike_post env s (.valid pid) uid).res = ⟨500, .send "Server Error"⟩ ∧
      (unlike_post env s (.valid pid) uid).store = s) ∧
    ((add_comment env s (.valid pid) uid (some text)).res = ⟨500, .send "Server Error"⟩ ∧
      (add_comment env s (.valid pid) uid (some text)).store = s) ∧
    ((remove_comment env s (.valid pid) cid uid).res = ⟨500, .send "Server Error"⟩ ∧
      (remove_comment env s (.valid pid) cid uid).store = s) := by
  refine ⟨?_, ?_, ?_, ?_⟩
  · cases hread : env.postRead <;>
      simp [like_post, like_post.tryBlock, Post.findById, hread, habs, catchAll, serverError]
  · cases hread : env.postRead <;>
      simp [unlike_post, unlike_post.tryBlock, Post.findById, hread, habs, catchAll,
        serverError]
  · cases huread : env.userRead <;> cases hread : env.postRead <;>
      cases hu : s.users.find? (fun v => decide (v.id = uid)) <;>
      simp [add_comment, add_comment.tryBlock, validationResult, htext, User.findById, huread,
        hu, Post.findById, hread, habs, catchAll, serverError]
  · cases hread : env.postRead <;>
      simp [remove_comment, remove_comment.tryBlock, Post.findById, hread, habs, catchAll,
        serverError]

/-- Bob likes a post that does not exist, with every store call working: the
answer is 500 'Server Error'. -/
theorem absent_post_answers_500_witness :
    store0.posts.find? (fun q => decide (q.id = 11)) = none ∧
    (like_post env0 store0 (.valid 11) 2).res = ⟨500, .send "Server Error"⟩ ∧
    (like_post env0 store0 (.valid 11) 2).res.status ≠ 404 ∧
    (get_post env0 store0 (.valid 11)).res.status = 404 :=
  ⟨by decide,
    (absent_post_answers_500 env0 store0 11 2 (.valid 30) "hi" (by decide) (by decide)).1.1,
    by decide, by decide⟩

/-! ## Validation -/

theorem catchAll_log (t : Tried) : (catchAll t).log = t.2.2 := by
  obtain ⟨r, s, l⟩ := t
  cases r <;> rfl

theorem catchAll_store (t : Tried) : (catchAll t).store = t.2.1 := by
  obtain ⟨r, s, l⟩ := t
  cases r <;> rfl

theorem create_post_first_call (env : Env) (s : Store) (uid : ObjectId)
    (text : Option String) :
    (create_post.tryBlock env s uid text).2.2.head? = some (.userFindById uid) := by
  unfold create_post.tryBlock
  cases User.findById env s uid with
  | error e => rfl
  | ok u =>
    cases u with
    | none => rfl
    | some u =>
      simp only
      split <;> rfl

theorem add_comment_first_call (env : Env) (s : Store) (id : IdParam) (uid : ObjectId)
    (text : Option String) :
    (add_comment.tryBlock env s id uid text).2.2.head? = some (.userFindById uid) := by
  unfold add_comment.tryBlock
  cases User.findById env s uid with
  | error e => rfl
  | ok u =>
    simp only
    cases Post.findById env s id with
    | error e => rfl
    | ok p =>
      cases u with
      | none => rfl
      | some u =>
        cases p with
        | none => rfl
        | some p =>
          simp only
          split <;> rfl

/-- C9: the text gate of create_post (POST /) and add_comment (POST
/comment/:id): a missing or empty text answers 400 with the validation
errors, the store unchanged and no store call issued; a non-empty text passes
to the `try` block, whose first act is a store call, the lookup of the user;
and the validation has no errors exactly when the text is there and not
empty. -/
theorem text_validation_gate (env : Env) (s : Store) (id : IdParam) (uid : ObjectId)
    (text : Option String) :
    ((text = none ∨ text = some "") →
      ((create_post env s uid text).res.status = 400 ∧
        (create_post env s uid text).res.body = .erros (validationResult text) ∧
        (create_post env s uid text).store = s ∧ (create_post env s uid text).log = []) ∧
      ((add_comment env s id uid text).res.status = 400 ∧
        (add_comment env s id uid text).res.body = .erros (validationResult text) ∧
        (add_comment env s id uid text).store = s ∧ (add_comment env s id uid text).log = [])) ∧
    (∀ t, text = some t → t ≠ "" →
      (create_post env s uid text = catchAll (create_post.tryBlock env s uid text) ∧
        (create_post env s uid text).log.head? = some (.userFindById uid)) ∧
      (add_comment env s id uid text = catchAll (add_comment.tryBlock env s id uid text) ∧
        (add_comment env s id uid text).log.head? = some (.userFindById uid))) ∧
    (validationResult text = [] ↔ ∃ t, text = some t ∧ t ≠ "") := by
  refine ⟨?_, ?_, ?_⟩
  · rintro (h | h) <;> subst h <;> simp [create_post, add_comment, validationResult]
  · intro t ht hne
    subst ht
    have hc : create_post env s uid (some t) =
        catchAll (create_post.tryBlock env s uid (some t)) := by
      simp [create_post, validationResult, hne]
    have ha : add_comment env s id uid (some t) =
        catchAll (add_comment.tryBlock env s id uid (some t)) := by
      simp [add_comment, validationResult, hne]
    refine ⟨⟨hc, ?_⟩, ⟨ha, ?_⟩⟩
    · rw [hc, catchAll_log]
      exact create_post_first_call env s uid (some t)
    · rw [ha, catchAll_log]
      exact add_comment_first_call env s id uid (some t)
  · cases text with
    | none => simp [validationResult]
    | some t =>
      by_cases ht : t = "" <;> simp [validationResult, ht]

/-! ## Failure leaves the store as it was -/

theorem create_post_atomic (env : Env) (s : Store) (uid : ObjectId) (text : Option String)
    (h : (create_post env s uid text).res.status ≠ 200) :
    (create_post env s uid text).store = s := by
  unfold create_post at h ⊢
  simp only at h ⊢
  split
  · rfl
  · rename_i hv
    simp only [hv, ↓reduceIte] at h
    unfold create_post.tryBlock at h ⊢
    cases hu : User.findById env s uid with
    | error e => rfl
    | ok u =>
      cases u with
      | none => rfl
      | some u =>
        simp only [hu] at h ⊢
        split
        · rfl
        · rename_i s' hs
          simp [hs, catchAll] at h

theorem delete_post_atomic (env : Env) (s : Store) (id : IdParam) (uid : ObjectId)
    (h : (delete_post env s id uid).res.status ≠ 200) :
    (delete_post env s id uid).store = s := by
  unfold delete_post delete_post.tryBlock at h ⊢
  cases hp : Post.findById env s id with
  | error e => simp only [catchObjectId]; split <;> rfl
  | ok p =>
    cases p with
    | none => rfl
    | some p =>
      simp only [hp] at h ⊢
      by_cases hu : p.user ≠ uid
      · rw [if_pos hu]
        rfl
      · rw [if_neg hu] at h ⊢
        cases hs : Post.remove env s p with
        | error e => simp only [catchObjectId]; split <;> rfl
        | ok s' => simp [hs, catchObjectId] at h

theorem like_post_atomic (env : Env) (s : Store) (id : IdParam) (uid : ObjectId)
    (h : (like_post env s id uid).res.status ≠ 200) :
    (like_post env s id uid).store = s := by
  unfold like_post like_post.tryBlock at h ⊢
  cases hp : Post.findById env s id with
  | error e => rfl
  | ok p =>
    cases p with
    | none => rfl
    | some p =>
      simp only [hp] at h ⊢
      split
      · rfl
      · rename_i hl
        simp only [hl, ↓reduceIte] at h
        split
        · rfl
        · rename_i s' hs
          simp [hs, catchAll] at h

theorem unlike_post_atomic (env : Env) (s : Store) (id : IdParam) (uid : ObjectId)
    (h : (unlike_post env s id uid).res.status ≠ 200) :
    (unlike_post env s id uid).store = s := by
  unfold unlike_post unlike_post.tryBlock at h ⊢
  cases hp : Post.findById env s id with
  | error e => rfl
  | ok p =>
    cases p with
    | none => rfl
    | some p =>
      simp only [hp] at h ⊢
      split
      · rfl
      · rename_i hl
        simp only [hl, ↓reduceIte] at h
        split
        · rfl
        · rename_i s' hs
          simp [hs, catchAll] at h

theorem add_comment_atomic (env : Env) (s : Store) (id : IdParam) (uid : ObjectId)
    (text : Option String)
    (h : (add_comment env s id uid text).res.status ≠ 200) :
    (add_comment env s id uid text).store = s := by
  unfold add_comment at h ⊢
  simp only at h ⊢
  split
  · rfl
  · rename_i hv
    simp only [hv, ↓reduceIte] at h
    unfold add_comment.tryBlock at h ⊢
    cases hu : User.findById env s uid with
    | error e => rfl
    | ok u =>
      simp only [hu] at h ⊢
      cases hp : Post.findById env s id with
      | error e => rfl
      | ok p =>
        cases u with
        | none => rfl
        | some u =>
          cases p with
          | none => rfl
          | some p =>
            simp only [hp] at h ⊢
            split
            · rfl
            · rename_i s' hs
              simp [hs, catchAll] at h

theorem remove_comment_atomic (env : Env) (s : Store) (id cid : IdParam) (uid : ObjectId)
    (h : (remove_comment env s id cid uid).res.status ≠ 200) :
    (remove_comment env s id cid uid).store = s := by
  unfold remove_comment remove_comment.tryBlock at h ⊢
  cases hp : Post.findById env s id with
  | error e => rfl
  | ok p =>
    cases p with
    | none => rfl
    | some p =>
      simp only [hp] at h ⊢
      cases hc : p.comments.find? (fun comment => decide (IdParam.valid comment.id = cid)) with
      | none => rfl
      | some c =>
        simp only [hc] at h ⊢
        by_cases hu : c.user ≠ uid
        · rw [if_pos hu]
          rfl
        · rw [if_neg hu] at h ⊢
          split
          · rfl
          · rename_i s' hs
            simp [hs, catchAll] at h

/-- C10: every request to a route that changes posts either answers 200 or
leaves the store exactly as it was, whatever the environment does: a failed
validation, a missing document, a refusal and a store call that throws (the
write after a successful read included) all leave every post, with its likes
and comments, untouched. -/
theorem failure_leaves_store (env : Env) (s : Store) (r : Request)
    (h : (handle env s r).res.status ≠ 200) : (handle env s r).store = s := by
  cases r with
  | create_post uid text => exact create_post_atomic env s uid text h
  | delete_post id uid => exact delete_post_atomic env s id uid h
  | like_post id uid => exact like_post_atomic env s id uid h
  | unlike_post id uid => exact unlike_post_atomic env s id uid h
  | add_comment id uid text => exact add_comment_atomic env s id uid text h
  | remove_comment id cid uid => exact remove_comment_atomic env s id cid uid h

/-- Bob likes Alice's post while the write fails: the read succeeds, the
answer is 500 and the store is as before. -/
theorem failure_leaves_store_witness :
    (handle envWriteDown store0 (.like_post (.valid 10) 2)).res.status = 500 ∧
    (handle envWriteDown store0 (.like_post (.valid 10) 2)).log =
      [.postFindById (.valid 10), .postSave 10] ∧
    (handle envWriteDown store0 (.like_post (.valid 10) 2)).store = store0 :=
  ⟨by decide, by decide,
    failure_leaves_store envWriteDown store0 (.like_post (.valid 10) 2) (by decide)⟩

/-! ## Invariants of the store -/

theorem save_ok {env : Env} {s s' : Store} {p : Post} (h : Post.save env s p = .ok s') :
    s' = { s with posts := replaceDoc p s.posts } := by
  unfold Post.save at h
  cases hw : env.postWrite with
  | some e => simp [hw] at h
  | none =>
    simp only [hw] at h
    exact (Except.ok.inj h).symm

theorem remove_ok {env : Env} {s s' : Store} {p : Post} (h : Post.remove env s p = .ok s') :
    s' = { s with posts := removeDoc p.id s.posts } := by
  unfold Post.remove at h
  cases hw : env.postWrite with
  | some e => simp [hw] at h
  | none =>
    simp only [hw] at h
    exact (Except.ok.inj h).symm

theorem insert_ok {env : Env} {s s' : Store} {p : Post} (h : Post.insert env s p = .ok s') :
    s' = { s with posts := s.posts ++ [p] } ∧ ∀ q ∈ s.posts, q.id ≠ p.id := by
  unfold Post.insert at h
  cases hw : env.postWrite with
  | some e => simp [hw] at h
  | none =>
    simp only [hw] at h
    by_cases hany : s.posts.any (fun q => decide (q.id = p.id)) = true
    · simp [hany] at h
    · simp only [hany] at h
      refine ⟨(Except.ok.inj h).symm, ?_⟩
      intro q hq hid
      apply hany
      rw [List.any_eq_true]
      exact ⟨q, hq, by simpa using hid⟩

theorem find_ok {env : Env} {s : Store} {id : IdParam} {p : Post}
    (h : Post.findById env s id = .ok (some p)) : p ∈ s.posts := by
  unfold Post.findById at h
  cases id with
  | malformed => simp at h
  | valid n =>
    cases hr : env.postRead with
    | some e => simp [hr] at h
    | none =>
      simp only [hr] at h
      exact List.mem_of_find?_eq_some (Except.ok.inj h)

theorem likesUnique_save (s : Store) (p : Post) (hs : LikesUnique s)
    (hp : (p.likes.map (fun like => like.user)).Nodup) :
    LikesUnique { s with posts := replaceDoc p s.posts } := by
  intro q hq
  rcases mem_replaceDoc hq with rfl | hq'
  · exact hp
  · exact hs q hq'

theorem likesUnique_remove (s : Store) (id : ObjectId) (hs : LikesUnique s) :
    LikesUnique { s with posts := removeDoc id s.posts } := by
  intro q hq
  exact hs q ((removeDoc_sublist id s.posts).subset hq)

theorem create_post_likesUnique (env : Env) (s : Store) (uid : ObjectId)
    (text : Option String) (hs : LikesUnique s) :
    LikesUnique (create_post env s uid text).store := by
  unfold create_post
  simp only
  split
  · exact hs
  · rw [catchAll_store]
    unfold create_post.tryBlock
    cases hu : User.findById env s uid with
    | error e => exact hs
    | ok u =>
      cases u with
      | none => exact hs
      | some u =>
        simp only
        split
        · exact hs
        · rename_i s' hins
          obtain ⟨hs', _⟩ := insert_ok hins
          subst hs'
          intro q hq
          rcases List.mem_append.mp hq with hq | hq
          · exact hs q hq
          · rw [List.mem_singleton.mp hq]
            exact List.nodup_nil

theorem delete_post_likesUnique (env : Env) (s : Store) (id : IdParam) (uid : ObjectId)
    (hs : LikesUnique s) : LikesUnique (delete_post env s id uid).store := by
  by_cases h : (delete_post env s id uid).res.status ≠ 200
  · rw [delete_post_atomic env s id uid h]
    exact hs
  · unfold delete_post delete_post.tryBlock at h ⊢
    cases hp : Post.findById env s id with
    | error e => simp only [catchObjectId]; split <;> exact hs
    | ok p =>
      cases p with
      | none => exact hs
      | some p =>
        simp only [hp] at h ⊢
        by_cases hu : p.user ≠ uid
        · rw [if_pos hu]
          exact hs
        · rw [if_neg hu]
          cases hrm : Post.remove env s p with
          | error e => simp only [catchObjectId]; split <;> exact hs
          | ok s' =>
            rw [remove_ok hrm]
            exact likesUnique_remove s p.id hs

theorem like_post_likesUnique (env : Env) (s : Store) (id : IdParam) (uid : ObjectId)
    (hs : LikesUnique s) : LikesUnique (like_post env s id uid).store := by
  unfold like_post like_post.tryBlock
  cases hp : Post.findById env s id with
  | error e => exact hs
  | ok p =>
    cases p with
    | none => exact hs
    | some p =>
      simp only
      split
      · exact hs
      · rename_i hl
        split
        · exact hs
        · rename_i s' hsave
          rw [catchAll, save_ok hsave]
          apply likesUnique_save s _ hs
          have hzero : (p.likes.filter (fun l => decide (l.user = uid))).length = 0 := by omega
          have hnone := (filter_length_zero_iff (fun l : Like => l.user = uid) p.likes).mp hzero
          simp only [List.map_cons, List.nodup_cons, List.mem_map, not_exists, not_and]
          exact ⟨fun l hl hlu => hnone l hl hlu, hs p (find_ok hp)⟩

theorem unlike_post_likesUnique (env : Env) (s : Store) (id : IdParam) (uid : ObjectId)
    (hs : LikesUnique s) : LikesUnique (unlike_post env s id uid).store := by
  unfold unlike_post unlike_post.tryBlock
  cases hp : Post.findById env s id with
  | error e => exact hs
  | ok p =>
    cases p with
    | none => exact hs
    | some p =>
      simp only
      split
      · exact hs
      · split
        · exact hs
        · rename_i s' hsave
          rw [catchAll, save_ok hsave]
          apply likesUnique_save s _ hs
          exact (hs p (find_ok hp)).sublist ((splice_sublist _ _ _).map _)

theorem add_comment_likesUnique (env : Env) (s : Store) (id : IdParam) (uid : ObjectId)
    (text : Option String) (hs : LikesUnique s) :
    LikesUnique (add_comment env s id uid text).store := by
  unfold add_comment
  simp only
  split
  · exact hs
  · rw [catchAll_store]
    unfold add_comment.tryBlock
    cases hu : User.findById env s uid with
    | error e => exact hs
    | ok u =>
      simp only
      cases hp : Post.findById env s id with
      | error e => exact hs
      | ok p =>
        cases u with
        | none => exact hs
        | some u =>
          cases p with
          | none => exact hs
          | some p =>
            simp only
            split
            · exact hs
            · rename_i s' hsave
              rw [save_ok hsave]
              exact likesUnique_save s _ hs (hs p (find_ok hp))

theorem remove_comment_likesUnique (env : Env) (s : Store) (id cid : IdParam)
    (uid : ObjectId) (hs : LikesUnique s) :
    LikesUnique (remove_comment env s id cid uid).store := by
  unfold remove_comment remove_comment.tryBlock
  cases hp : Post.findById env s id with
  | error e => exact hs
  | ok p =>
    cases p with
    | none => exact hs
    | some p =>
      simp only
      cases hc : p.comments.find? (fun comment => decide (IdParam.valid comment.id = cid)) with
      | none => exact hs
      | some c =>
        simp only
        by_cases hu : c.user ≠ uid
        · rw [if_pos hu]
          exact hs
        · rw [if_neg hu]
          split
          · exact hs
          · rename_i s' hsave
            rw [catchAll, save_ok hsave]
            exact likesUnique_save s _ hs (hs p (find_ok hp))

theorem handle_likesUnique (env : Env) (s : Store) (r : Request) (hs : LikesUnique s) :
    LikesUnique (handle env s r).store := by
  cases r with
  | create_post uid text => exact create_post_likesUnique env s uid text hs
  | delete_post id uid => exact delete_post_likesUnique env s id uid hs
  | like_post id uid => exact like_post_likesUnique env s id uid hs
  | unlike_post id uid => exact unlike_post_likesUnique env s id uid hs
  | add_comment id uid text => exact add_comment_likesUnique env s id uid text hs
  | remove_comment id cid uid => exact remove_comment_likesUnique env s id cid uid hs

/-- C2: at most one like per post and user is an invariant: from a store in
which it holds, after any finite sequence of create_post, delete_post,
like_post, unlike_post, add_comment and remove_comment requests by any users
in any environments, it holds again; and a post that create_post stores has
no likes. -/
theorem likes_unique_invariant (s : Store) (reqs : List (Env × Request))
    (hs : LikesUnique s) :
    LikesUnique (run s reqs) ∧
    ∀ (env : Env) (uid : ObjectId) (text : Option String) (p : Post),
      (create_post env s uid text).res = ⟨200, .post p⟩ →
        p.likes = [] ∧ p ∈ (create_post env s uid text).store.posts := by
  constructor
  · induction reqs generalizing s with
    | nil => exact hs
    | cons er rest ih =>
      obtain ⟨env, r⟩ := er
      exact ih (handle env s r).store (handle_likesUnique env s r hs)
  · intro env uid text p hres
    unfold create_post at hres ⊢
    simp only at hres ⊢
    split at hres
    · simp at hres
    · rename_i hv
      simp only [hv, ↓reduceIte]
      unfold create_post.tryBlock at hres ⊢
      cases hu : User.findById env s uid with
      | error e => simp [hu, catchAll, serverError] at hres
      | ok u =>
        cases u with
        | none => simp [hu, catchAll, serverError] at hres
        | some u =>
          simp only [hu] at hres ⊢
          cases hins : Post.insert env s _ with
          | error e => simp [hins, catchAll, serverError] at hres
          | ok s' =>
            simp only [hins, catchAll] at hres ⊢
            obtain ⟨hs', _⟩ := insert_ok hins
            have hp := (Body.post.inj (Response.mk.inj hres).2).symm
            subst hp
            subst hs'
            exact ⟨rfl, by simp⟩

/-- Alice posts again, Bob likes her first post twice, Alice likes it, Bob
takes his like back, comments and Alice deletes the second post: each post
still has at most one like per user, and the first post holds Alice's like
alone. -/
theorem likes_unique_invariant_witness :
    LikesUnique store0 ∧
    LikesUnique (run store0
      [(env0, .create_post 1 (some "second")), (env0, .like_post (.valid 10) 2),
        (env0, .like_post (.valid 10) 2), (env0, .like_post (.valid 10) 1),
        (env0, .unlike_post (.valid 10) 2), (env0, .add_comment (.valid 10) 2 (some "hi")),
        (env0, .delete_post (.valid 100) 1)]) ∧
    (run store0
      [(env0, .create_post 1 (some "second")), (env0, .like_post (.valid 10) 2),
        (env0, .like_post (.valid 10) 2), (env0, .like_post (.valid 10) 1),
        (env0, .unlike_post (.valid 10) 2), (env0, .add_comment (.valid 10) 2 (some "hi")),
        (env0, .delete_post (.valid 100) 1)]).posts.map (fun p => (p.id, p.likes)) =
      [(10, [{ user := 1 }])] :=
  have h0 : LikesUnique store0 := by simp [LikesUnique, store0, hello]
  ⟨h0, (likes_unique_invariant store0 _ h0).1, by decide⟩

/-! ## Post ids stay distinct -/

theorem map_id_replaceDoc (p : Post) (posts : List Post) :
    (replaceDoc p posts).map (fun q => q.id) = posts.map (fun q => q.id) := by
  induction posts with
  | nil => rfl
  | cons r rs ih =>
    unfold replaceDoc
    by_cases hr : r.id = p.id
    · simp [hr]
    · simp only [hr, ↓reduceIte, List.map_cons, ih]

theorem uniqueIds_save (s : Store) (p : Post) (hs : UniqueIds s) :
    UniqueIds { s with posts := replaceDoc p s.posts } := by
  unfold UniqueIds at hs ⊢
  rw [map_id_replaceDoc p s.posts]
  exact hs

theorem uniqueIds_remove (s : Store) (id : ObjectId) (hs : UniqueIds s) :
    UniqueIds { s with posts := removeDoc id s.posts } :=
  List.Nodup.sublist ((removeDoc_sublist id s.posts).map _) hs

theorem uniqueIds_insert (s : Store) (p : Post) (hs : UniqueIds s)
    (hfresh : ∀ q ∈ s.posts, q.id ≠ p.id) :
    UniqueIds { s with posts := s.posts ++ [p] } := by
  unfold UniqueIds at hs ⊢
  simp only [List.map_append, List.map_cons, List.map_nil]
  rw [List.nodup_append]
  refine ⟨hs, List.nodup_singleton _, ?_⟩
  intro a ha hb
  rw [List.mem_singleton] at hb
  obtain ⟨q, hq, hqa⟩ := List.mem_map.mp ha
  exact hfresh q hq (hqa.trans hb)

/-- No request makes two posts share an id. -/
theorem handle_uniqueIds (env : Env) (s : Store) (r : Request) (hs : UniqueIds s) :
    UniqueIds (handle env s r).store := by
  cases r with
  | create_post uid text =>
    simp only [handle, create_post]
    split
    · exact hs
    · rw [catchAll_store]
      unfold create_post.tryBlock
      cases hu : User.findById env s uid with
      | error e => exact hs
      | ok u =>
        cases u with
        | none => exact hs
        | some u =>
          simp only
          split
          · exact hs
          · rename_i s' hins
            obtain ⟨hs', hfresh⟩ := insert_ok hins
            rw [hs']
            exact uniqueIds_insert s _ hs hfresh
  | delete_post id uid =>
    simp only [handle, delete_post, delete_post.tryBlock]
    cases hp : Post.findById env s id with
    | error e => simp only [catchObjectId]; split <;> exact hs
    | ok p =>
      cases p with
      | none => exact hs
      | some p =>
        simp only
        by_cases hu : p.user ≠ uid
        · rw [if_pos hu]
          exact hs
        · rw [if_neg hu]
          cases hrm : Post.remove env s p with
          | error e => simp only [catchObjectId]; split <;> exact hs
          | ok s' =>
            rw [remove_ok hrm]
            exact uniqueIds_remove s p.id hs
  | like_post id uid =>
    simp only [handle, like_post, like_post.tryBlock]
    cases hp : Post.findById env s id with
    | error e => exact hs
    | ok p =>
      cases p with
      | none => exact hs
      | some p =>
        simp only
        split
        · exact hs
        · split
          · exact hs
          · rename_i s' hsave
            rw [catchAll, save_ok hsave]
            exact uniqueIds_save s _ hs
  | unlike_post id uid =>
    simp only [handle, unlike_post, unlike_post.tryBlock]
    cases hp : Post.findById env s id with
    | error e => exact hs
    | ok p =>
      cases p with
      | none => exact hs
      | some p =>
        simp only
        split
        · exact hs
        · split
          · exact hs
          · rename_i s' hsave
            rw [catchAll, save_ok hsave]
            exact uniqueIds_save s _ hs
  | add_comment id uid text =>
    simp only [handle, add_comment]
    split
    · exact hs
    · rw [catchAll_store]
      unfold add_comment.tryBlock
      cases hu : User.findById env s uid with
      | error e => exact hs
      | ok u =>
        simp only
        cases hp : Post.findById env s id with
        | error e => exact hs
        | ok p =>
          cases u with
          | none => exact hs
          | some u =>
            cases p with
            | none => exact hs
            | some p =>
              simp only
              split
              · exact hs
              · rename_i s' hsave
                rw [save_ok hsave]
                exact uniqueIds_save s _ hs
  | remove_comment id cid uid =>
    simp only [handle, remove_comment, remove_comment.tryBlock]
    cases hp : Post.findById env s id with
    | error e => exact hs
    | ok p =>
      cases p with
      | none => exact hs
      | some p =>
        simp only
        cases hc : p.comments.find? (fun comment => decide (IdParam.valid comment.id = cid)) with
        | none => exact hs
        | some c =>
          simp only
          by_cases hu : c.user ≠ uid
          · rw [if_pos hu]
            exact hs
          · rw [if_neg hu]
            split
            · exact hs
            · rename_i s' hsave
              rw [catchAll, save_ok hsave]
              exact uniqueIds_save s _ hs

/-- Distinct post ids hold of every store reached from one in which they
hold. -/
theorem run_uniqueIds (s : Store) (reqs : List (Env × Request)) (hs : UniqueIds s) :
    UniqueIds (run s reqs) := by
  induction reqs generalizing s with
  | nil => exact hs
  | cons er rest ih =>
    obtain ⟨env, r⟩ := er
    exact ih (handle env s r).store (handle_uniqueIds env s r hs)

end DevConnector
